import Mathlib

/-!
# Verification of the VS Code selfhost test provider (`src/vscodeTestProvider.ts`)

A shallow embedding of the result-reconciliation core of the extension:

* `tryMakeMarkdown` — the diagnostic formatter;
* `execFileLineCol` / `tryDeriveLocation` — the location resolver, with the
  `/(file:\/{3}.+):([0-9]+):([0-9]+)/` pattern implemented concretely
  (leftmost match, greedy groups with backtracking, `.` excludes line
  terminators) and the source-map library plus the file fetch abstracted as
  an environment of (possibly failing) functions;
* `getPendingTestMap` — the pending-test index builder over the test-item
  hierarchy (a file node's asynchronous `refresh` is modelled by the node
  carrying the children it has after the refresh);
* `scanTestOutput` — the run scanner, modelled as a fold of a step function
  over a trace of delivered occurrences (cancellation firing, runner errors,
  raw output, Mocha events, and completions of the fire-and-forget location
  resolutions spawned by `fail` events).  The promise is a settle-once cell;
  `scanner.dispose()` (the `.finally` cleanup) is recorded by the `disposed`
  flag at the settling step.  Mutations performed through the run request
  (`req.setState`, `req.appendMessage`) are recorded as an action trace.
-/

set_option autoImplicit false

namespace VscodeTestProvider

/-- `vscode.TestResultState` (the enumeration values used by the source). -/
inductive TestResultState where
  | Unset
  | Queued
  | Running
  | Passed
  | Failed
  | Skipped
  | Errored
deriving DecidableEq, Repr

/-- `vscode.Position` (line, character).  `Int` so that the resolver's
`position.line - 1` conversion is represented exactly. -/
structure Position where
  line : Int
  character : Int
deriving DecidableEq, Repr

/-- `vscode.Range`; only `start` is consulted by the modelled code, `stop`
models the `end` field. -/
structure Range where
  start : Position
  stop : Position
deriving DecidableEq, Repr

/-- A `vscode.Location` holds a URI (modelled as the string; `Uri.parse` is
the identity in the model) and either a range or a position. -/
inductive RangeOrPos where
  | ofRange (r : Range)
  | ofPos (p : Position)
deriving DecidableEq, Repr

structure Location where
  uri : String
  target : RangeOrPos
deriving DecidableEq, Repr

/-- A leaf `TestCase` of the test tree: its fully-qualified title
(`fullLabel`), document URI and declared range. -/
structure TestCase where
  fullLabel : String
  uri : String
  range : Range
deriving DecidableEq, Repr

/-- Result of `tryMakeMarkdown`: either the message string unchanged, or a
`MarkdownString` carrying the fenced text. -/
inductive FormattedMessage where
  | plain (s : String)
  | markdown (s : String)
deriving DecidableEq, Repr

/-- The `TestMessage` assembled in the `fail` continuation (all four fields
are assigned there before the message is attached). -/
structure TestMessage where
  message : FormattedMessage
  location : Location
  actualOutput : String
  expectedOutput : String
deriving DecidableEq, Repr

/-! ## String helpers (JS `String.prototype.includes`, template literals) -/

/-- `leadsWith pre cs`: `cs` begins with `pre`. -/
def leadsWith : List Char → List Char → Bool
  | [], _ => true
  | _ :: _, [] => false
  | a :: xs, b :: ys => a = b && leadsWith xs ys

/-- `containsSeq pat cs`: `pat` occurs as a contiguous block of `cs`. -/
def containsSeq (pat : List Char) : List Char → Bool
  | [] => leadsWith pat []
  | c :: cs => leadsWith pat (c :: cs) || containsSeq pat cs

/-- JS `l.includes(sub)`. -/
def strContains (l sub : String) : Bool :=
  containsSeq sub.toList l.toList

/-- JS `message.split(sep)` for a one-character separator (also the
behaviour of `String.splitOn`): `""` yields `[""]`, separators at the ends
yield empty groups. -/
def splitChar (sep : Char) : List Char → List (List Char)
  | [] => [[]]
  | a :: rest =>
    match splitChar sep rest with
    | [] => [[]]
    | g :: gs => if a = sep then [] :: g :: gs else (a :: g) :: gs

/-- The line list of a message, as strings. -/
def splitLines (message : String) : List String :=
  (splitChar '\n' message.toList).map String.mk

/-- JS `lines.join('\n')`. -/
def joinLines : List String → String
  | [] => ""
  | [l] => l
  | l :: ls => l ++ "\n" ++ joinLines ls

/-! ## `tryMakeMarkdown` — the diagnostic formatter -/

/-- `tryMakeMarkdown` from the source: split on `'\n'`, find the first line
containing `"+ actual"`; if none, return the message itself; otherwise
replace that line (`lines.splice(start, 1, '```diff')`) by the opening
fence, push a closing fence, and return the joined text as markdown. -/
def tryMakeMarkdown (message : String) : FormattedMessage :=
  let lines := splitLines message
  match lines.findIdx? (fun l => strContains l "+ actual") with
  | none => .plain message
  | some start => .markdown (joinLines ((lines.set start "```diff") ++ ["```"]))

/-! ## The location pattern `/(file:\/{3}.+):([0-9]+):([0-9]+)/`

`RegExp.exec` is a host builtin; the pattern itself is repository code, so
the matcher for this concrete pattern is implemented here: leftmost match
wins; `.` matches anything except a line terminator and is greedy with
backtracking; the two `[0-9]+` groups are greedy.  Because any proper
prefix of a maximal digit run is followed by a digit (never by `':'`), the
digit groups never backtrack: each must be a full maximal run. -/

/-- A JS line terminator (the characters `.` does not match). -/
def isLineTerm (c : Char) : Bool :=
  c = '\n' || c = '\r' || c = Char.ofNat 0x2028 || c = Char.ofNat 0x2029

/-- Split off the maximal leading digit run. -/
def digitRun : List Char → List Char × List Char
  | [] => ([], [])
  | c :: cs =>
    if c.isDigit then
      let p := digitRun cs
      (c :: p.1, p.2)
    else ([], c :: cs)

/-- Match `:([0-9]+):([0-9]+)` at the head of `cs`, returning the two digit
groups. -/
def tailMatch (cs : List Char) : Option (List Char × List Char) :=
  match cs with
  | ':' :: rest =>
    let p2 := digitRun rest
    if p2.1.isEmpty then none
    else
      match p2.2 with
      | ':' :: rest2 =>
        let p3 := digitRun rest2
        if p3.1.isEmpty then none else some (p2.1, p3.1)
      | _ => none
  | _ => none

/-- Backtracking over the greedy `.+`: try middle lengths from `L` down to
`1`; at each length the suffix must match `:digits:digits`. -/
def tryMiddles (rest : List Char) : Nat → Option (Nat × List Char × List Char)
  | 0 => none
  | Nat.succ l =>
    match tailMatch (rest.drop (l + 1)) with
    | some p => some (l + 1, p.1, p.2)
    | none => tryMiddles rest l

/-- Attempt a match anchored at the head of `cs`; on success return the
three capture groups (file URI including the `file:///` scheme, line
digits, column digits). -/
def matchAt (cs : List Char) : Option (String × String × String) :=
  if leadsWith "file:///".toList cs then
    let rest := cs.drop 8
    match tryMiddles rest (rest.takeWhile (fun c => !isLineTerm c)).length with
    | some r => some (("file:///" ++ String.mk (rest.take r.1), String.mk r.2.1, String.mk r.2.2))
    | none => none
  else none

/-- Leftmost-match scan of `exec`. -/
def execAux : List Char → Option (String × String × String)
  | [] => none
  | c :: cs =>
    match matchAt (c :: cs) with
    | some r => some r
    | none => execAux cs

/-- `/(file:\/{3}.+):([0-9]+):([0-9]+)/.exec(stack)`, as the triple of
capture groups of the leftmost match. -/
def execFileLineCol (stack : String) : Option (String × String × String) :=
  execAux stack.toList

/-- JS `Number(s)` restricted to the digit strings the pattern can
produce. -/
def numberOfDigits (s : String) : Int :=
  ((s.toNat?).getD 0 : Nat)

/-! ## `tryDeriveLocation` — the location resolver -/

/-- The query object `{column, line}` passed to `originalPositionFor`. -/
structure SmQuery where
  column : Int
  line : Int
deriving DecidableEq, Repr

/-- The result of `originalPositionFor`; each field may be `null`. -/
structure OrigPosition where
  source : Option String
  line : Option Int
  column : Option Int
deriving DecidableEq, Repr

/-- A parsed `SourceMapConsumer`: its `originalPositionFor` query function. -/
structure SourceMapData where
  originalPositionFor : SmQuery → OrigPosition

/-- External collaborators of the resolver: `getContentsFromFile` (file
fetch, may throw) and the `SourceMapConsumer` constructor (contents and
source-map URI, may throw).  `Except String` models a thrown exception. -/
structure ResolverEnv where
  getContentsFromFile : String → Except String String
  sourceMapConsumer : String → String → Except String SourceMapData

/-- The `try { ... }` block of `tryDeriveLocation`: fetch `fileUri + ".map"`
and construct the consumer; any failure is the caught branch. -/
def loadSourceMap (env : ResolverEnv) (fileUri : String) : Except String SourceMapData :=
  (env.getContentsFromFile (fileUri ++ ".map")).bind
    (fun contents => env.sourceMapConsumer contents (fileUri ++ ".map"))

/-- `tryDeriveLocation` from the source.  A caught fetch/parse failure is
logged (`console.warn`, external) and yields `none`; the total `Option`
result type reflects that no exception escapes. -/
def tryDeriveLocation (env : ResolverEnv) (stack : String) : Option Location :=
  match execFileLineCol stack with
  | none => none
  | some parts =>
    match loadSourceMap env parts.1 with
    | .error _ => none
    | .ok sourceMap =>
      let position := sourceMap.originalPositionFor
        ⟨numberOfDigits parts.2.2 - 1, numberOfDigits parts.2.1⟩
      match position.line, position.column, position.source with
      | some line, some column, some source =>
        some ⟨source, .ofPos ⟨line - 1, column⟩⟩
      | none, _, _ => none
      | _, none, _ => none
      | _, _, none => none

/-! ## The test-item hierarchy and `getPendingTestMap`

`VSCodeTest` is the union the builder dispatches on with `instanceof`:
`TestFile` (whose asynchronous `refresh()` repopulates its children — the
model lets the node carry the children it has once refreshed), a leaf
`TestCase`, and every other node (roots, suites), which only exposes its
`children`. -/

inductive VSCodeTest where
  | file (childrenAfterRefresh : List VSCodeTest)
  | case (c : TestCase)
  | root (children : List VSCodeTest)

mutual

/-- Size of a node, counting the children a file has after `refresh`. -/
def sizeT : VSCodeTest → Nat
  | .file rc => 1 + sizeL rc
  | .case _ => 1
  | .root ch => 1 + sizeL ch

def sizeL : List VSCodeTest → Nat
  | [] => 0
  | t :: ts => sizeT t + sizeL ts

end

/-- Total size of the batches on the work stack. -/
def sizeQ : List (List VSCodeTest) → Nat
  | [] => 0
  | b :: q => sizeL b + sizeQ q

mutual

/-- All leaf cases below a node (a file contributing its refreshed
children). -/
def collectCases : VSCodeTest → List TestCase
  | .file rc => collectList rc
  | .case c => [c]
  | .root ch => collectList ch

def collectList : List VSCodeTest → List TestCase
  | [] => []
  | t :: ts => collectCases t ++ collectList ts

end

/-- JS `Map.prototype.set`: update the first entry with the key in place,
else append. -/
def mapSet : List (String × TestCase) → String → TestCase → List (String × TestCase)
  | [], k, v => [(k, v)]
  | (k1, v1) :: rest, k, v =>
    if k1 = k then (k1, v) :: rest else (k1, v1) :: mapSet rest k v

/-- JS `Map.prototype.get`. -/
def lookupTM (m : List (String × TestCase)) (k : String) : Option TestCase :=
  (m.find? (fun p => p.1 = k)).map (fun p => p.2)

/-- JS `Map.prototype.delete`. -/
def mapDelete (m : List (String × TestCase)) (k : String) : List (String × TestCase) :=
  m.filter (fun p => ¬ p.1 = k)

/-- The loop of `getPendingTestMap`: `batch` is the popped batch currently
iterated, the head of `queue` is the next batch to pop (`queue.push` is
therefore consing, matching the LIFO `queue.pop()`), and `m` the map built
so far. -/
def getPendingAux : List VSCodeTest → List (List VSCodeTest) → List (String × TestCase) →
    List (String × TestCase)
  | [], [], m => m
  | [], b :: q, m => getPendingAux b q m
  | t :: bs, q, m =>
    match t with
    | .file rc => getPendingAux bs (rc :: q) m
    | .case c => getPendingAux bs q (mapSet m c.fullLabel c)
    | .root ch => getPendingAux bs (ch :: q) m
termination_by b q _ => (sizeL b + sizeQ q, q.length)
decreasing_by
  all_goals simp only [sizeL, sizeT, sizeQ, Nat.zero_add, List.length_cons]
  · exact Prod.Lex.right _ (Nat.lt_succ_self _)
  · exact Prod.Lex.left _ _ (by omega)
  · exact Prod.Lex.left _ _ (by omega)
  · exact Prod.Lex.left _ _ (by omega)

/-- `getPendingTestMap` from the source: seed the work stack with the
requested items as one batch and run the loop (each `TestFile` is
refreshed before its children are pushed). -/
def getPendingTestMap (tests : List VSCodeTest) : List (String × TestCase) :=
  getPendingAux tests [] []

/-- The sequence of case insertions, in the order the loop performs them
(same recursion structure as `getPendingAux`). -/
def procOrder : List VSCodeTest → List (List VSCodeTest) → List TestCase
  | [], [] => []
  | [], b :: q => procOrder b q
  | t :: bs, q =>
    match t with
    | .file rc => procOrder bs (rc :: q)
    | .case c => c :: procOrder bs q
    | .root ch => procOrder bs (ch :: q)
termination_by b q => (sizeL b + sizeQ q, q.length)
decreasing_by
  all_goals simp only [sizeL, sizeT, sizeQ, Nat.zero_add, List.length_cons]
  · exact Prod.Lex.right _ (Nat.lt_succ_self _)
  · exact Prod.Lex.left _ _ (by omega)
  · exact Prod.Lex.left _ _ (by omega)
  · exact Prod.Lex.left _ _ (by omega)

/-- Inserting a list of cases in order, title-keyed (the loop's effect on
the map). -/
def foldIns (m : List (String × TestCase)) (l : List TestCase) : List (String × TestCase) :=
  l.foldl (fun acc c => mapSet acc c.fullLabel c) m

/-! ## `scanTestOutput` — the run scanner

The scan is a fold of `stepEvent` over a trace of delivered occurrences.
A `fail` event on a pending title spawns a fire-and-forget location
resolution (`tryDeriveLocation(...).then(...)`); the spawned continuation
is stored in `conts` and its completion is itself a trace occurrence
(`locationDone k`), so a trace can complete it at any later point —
including after the promise has settled.  `resolveP` is the settle-once
promise cell; it also sets `disposed`, the `.finally(() => scanner.dispose())`
cleanup that runs when the promise settles (the synchronous
already-cancelled entry path disposes directly). -/

/-- `evt[1]` of a `fail` event. -/
structure FailPayload where
  fullTitle : String
  duration : Nat
  err : String
  stack : Option String
  expected : String
  actual : String
deriving DecidableEq, Repr

/-- The continuation closed over by `tryDeriveLocation(stack || err).then(...)`:
the matched case, its precomputed `testFirstLine` fallback, and the event
payload fields it uses. -/
structure FailCont where
  title : String
  tcase : TestCase
  firstLine : Location
  err : String
  stack : Option String
  expected : String
  actual : String
  duration : Nat
deriving DecidableEq, Repr

/-- A mutation performed through the run request `req`, tagged with the
title under which the case was matched. -/
inductive ReqAction where
  | setState (title : String) (tcase : TestCase) (state : TestResultState) (duration : Nat)
  | appendMessage (title : String) (tcase : TestCase) (message : TestMessage)
deriving DecidableEq, Repr

/-- An occurrence delivered to the scan: the cancellation signal firing, a
runner-level fault, raw output, a Mocha event, or the completion of the
`k`-th spawned location resolution. -/
inductive ScanEvent where
  | cancelRequested
  | runnerError (err : String)
  | otherOutput (str : String)
  | mochaStart
  | mochaPass (fullTitle : String) (duration : Nat)
  | mochaFail (payload : FailPayload)
  | mochaEnd
  | locationDone (k : Nat)
deriving DecidableEq, Repr

/-- The scan's observable state: the pending index, the settle-once promise
cell, the `disposed` flag of the scanner handle, the output-channel lines,
the trace of `req` mutations, and the spawned continuations (`none` marks
one that already ran). -/
structure ScanState where
  tests : List (String × TestCase)
  settled : Option TestResultState
  disposed : Bool
  log : List String
  actions : List ReqAction
  conts : List (Option FailCont)
deriving DecidableEq, Repr

/-- `resolve(state)` on the scan's promise: the first call wins; settlement
triggers the `.finally` disposal. -/
def resolveP (state : TestResultState) (s : ScanState) : ScanState :=
  match s.settled with
  | some _ => s
  | none => { s with settled := some state, disposed := true }

/-- The state the scan starts from. -/
def initScan (tests0 : List (String × TestCase)) : ScanState :=
  { tests := tests0, settled := none, disposed := false, log := [], actions := [], conts := [] }

/-- JS `stack || err` (an absent or empty `stack` string is falsy). -/
def jsOr (stack : Option String) (err : String) : String :=
  match stack with
  | some s => if s = "" then err else s
  | none => err

/-- `testFirstLine`: the fallback location built from the matched case —
its own URI, from the declared range's start to column 100 of the start
line. -/
def testFirstLineOf (tcase : TestCase) : Location :=
  ⟨tcase.uri, .ofRange ⟨tcase.range.start, ⟨tcase.range.start.line, 100⟩⟩⟩

/-- The body of `tryDeriveLocation(stack || err).then(location => ...)`:
build the `TestMessage` (formatted error, resolved location or the
`testFirstLine` fallback, actual/expected), attach it, set the case
`Failed`, and log the raw stack/error text.  Nothing here consults
`settled`: the continuation runs unconditionally when its resolution
completes. -/
def runCont (env : ResolverEnv) (c : FailCont) (s : ScanState) : ScanState :=
  let location := tryDeriveLocation env (jsOr c.stack c.err)
  let message : TestMessage :=
    { message := tryMakeMarkdown c.err
      location := location.getD c.firstLine
      actualOutput := c.actual
      expectedOutput := c.expected }
  { s with
      actions := s.actions ++
        [.appendMessage c.title c.tcase message, .setState c.title c.tcase .Failed c.duration]
      log := s.log ++ [jsOr c.stack c.err] }

/-- One delivered occurrence, handled exactly as the registered handlers
do. -/
def stepEvent (env : ResolverEnv) (s : ScanState) (e : ScanEvent) : ScanState :=
  match e with
  | .cancelRequested => resolveP .Skipped s
  | .runnerError err => resolveP .Errored { s with log := s.log ++ [err] }
  | .otherOutput str => { s with log := s.log ++ [str] }
  | .mochaStart => s
  | .mochaPass title duration =>
    let s1 := { s with log := s.log ++ [" √ " ++ title] }
    match lookupTM s.tests title with
    | some tcase =>
      { s1 with
          actions := s1.actions ++ [.setState title tcase .Passed duration]
          tests := mapDelete s1.tests title }
    | none => s1
  | .mochaFail payload =>
    let s1 := { s with log := s.log ++ [" x " ++ payload.fullTitle] }
    match lookupTM s.tests payload.fullTitle with
    | none => s1
    | some tcase =>
      { s1 with
          tests := mapDelete s1.tests payload.fullTitle
          conts := s1.conts ++ [some
            { title := payload.fullTitle
              tcase := tcase
              firstLine := testFirstLineOf tcase
              err := payload.err
              stack := payload.stack
              expected := payload.expected
              actual := payload.actual
              duration := payload.duration }] }
  | .mochaEnd => resolveP .Skipped s
  | .locationDone k =>
    match s.conts[k]? with
    | some (some c) => runCont env c { s with conts := s.conts.set k none }
    | _ => s

/-- `scanTestOutput`: if cancellation is already requested on entry, the
scanner is disposed and the promise resolved `Skipped` synchronously,
without subscribing to any event; otherwise the delivered occurrences are
folded over the handlers. -/
def scanTestOutput (cancelledAtEntry : Bool) (tests0 : List (String × TestCase))
    (env : ResolverEnv) (events : List ScanEvent) : ScanState :=
  if cancelledAtEntry then
    { tests := tests0, settled := some .Skipped, disposed := true,
      log := [], actions := [], conts := [] }
  else
    events.foldl (stepEvent env) (initScan tests0)

/-- The settling effect of a single occurrence (which paths call `resolve`,
and with which `TestResultState`). -/
def eventSettles : ScanEvent → Option TestResultState
  | .cancelRequested => some .Skipped
  | .runnerError _ => some .Errored
  | .mochaEnd => some .Skipped
  | _ => none

/-- The coordinator's post-scan check in `runTests`:
`if (outcome !== TestResultState.Skipped) output.show()`. -/
def showOutputAfterRun (outcome : TestResultState) : Bool :=
  decide (outcome ≠ TestResultState.Skipped)

/-! ## Counting the mutations of a title -/

/-- How many times a run set the result state of the case matched under
`title`. -/
def countSetState (title : String) (acts : List ReqAction) : Nat :=
  acts.countP (fun a => match a with
    | .setState t _ _ _ => decide (t = title)
    | _ => false)

/-- How many spawned, not yet completed continuations will set the state of
`title`. -/
def contCount (title : String) (conts : List (Option FailCont)) : Nat :=
  conts.countP (fun oc => match oc with
    | some c => decide (c.title = title)
    | none => false)

/-- Whether `title` is still pending (so a future event may match it). -/
def pendingFlag (title : String) (tests : List (String × TestCase)) : Nat :=
  if (lookupTM tests title).isSome then 1 else 0

/-- The total number of state settings `title` can ever receive from state
`s` on: already performed, in flight, or still pending. -/
def budget (title : String) (s : ScanState) : Nat :=
  countSetState title s.actions + contCount title s.conts + pendingFlag title s.tests

/-! ## Lemmas about the map operations -/

theorem lookupTM_nil (k : String) : lookupTM [] k = none := rfl

theorem lookupTM_cons (k1 : String) (v1 : TestCase) (rest : List (String × TestCase))
    (k : String) :
    lookupTM ((k1, v1) :: rest) k = if k1 = k then some v1 else lookupTM rest k := by
  by_cases h : k1 = k <;> simp [lookupTM, List.find?_cons, h]

theorem mapDelete_cons (k1 : String) (v1 : TestCase) (rest : List (String × TestCase))
    (k : String) :
    mapDelete ((k1, v1) :: rest) k =
      if k1 = k then mapDelete rest k else (k1, v1) :: mapDelete rest k := by
  by_cases h : k1 = k <;> simp [mapDelete, h]

theorem lookupTM_mapDelete_self (m : List (String × TestCase)) (k : String) :
    lookupTM (mapDelete m k) k = none := by
  induction m with
  | nil => rfl
  | cons p rest ih =>
    obtain ⟨k1, v1⟩ := p
    by_cases h : k1 = k
    · simpa [mapDelete_cons, h] using ih
    · simpa [mapDelete_cons, lookupTM_cons, h] using ih

theorem lookupTM_mapDelete_ne (m : List (String × TestCase)) (k k' : String) (h : k' ≠ k) :
    lookupTM (mapDelete m k) k' = lookupTM m k' := by
  induction m with
  | nil => rfl
  | cons p rest ih =>
    obtain ⟨k1, v1⟩ := p
    have hkk : ¬ k = k' := fun hc => h hc.symm
    by_cases h1 : k1 = k
    · simpa [mapDelete_cons, h1, lookupTM_cons, hkk] using ih
    · by_cases h2 : k1 = k' <;> simp [mapDelete_cons, h1, lookupTM_cons, h2, h, ih]

theorem lookupTM_mapSet_self (m : List (String × TestCase)) (k : String) (v : TestCase) :
    lookupTM (mapSet m k v) k = some v := by
  induction m with
  | nil => simp [mapSet, lookupTM_cons]
  | cons p rest ih =>
    obtain ⟨k1, v1⟩ := p
    by_cases h : k1 = k
    · simp [mapSet, h, lookupTM_cons]
    · simpa [mapSet, h, lookupTM_cons] using ih

theorem lookupTM_mapSet_ne (m : List (String × TestCase)) (k k' : String) (v : TestCase)
    (h : k' ≠ k) : lookupTM (mapSet m k v) k' = lookupTM m k' := by
  induction m with
  | nil =>
    have h2 : ¬ k = k' := fun hc => h hc.symm
    simp [mapSet, lookupTM_cons, h2, lookupTM_nil]
  | cons p rest ih =>
    obtain ⟨k1, v1⟩ := p
    have hkk : ¬ k = k' := fun hc => h hc.symm
    by_cases h1 : k1 = k
    · simp [mapSet, h1, lookupTM_cons, hkk]
    · by_cases h2 : k1 = k' <;> simp [mapSet, h1, lookupTM_cons, h2, h, ih]

/-! ## Lemmas about settlement and disposal -/

/-- One step settles per `eventSettles`, and a settled promise never
changes value. -/
theorem settled_stepEvent (env : ResolverEnv) (s : ScanState) (e : ScanEvent) :
    (stepEvent env s e).settled =
      match s.settled with
      | some v => some v
      | none => eventSettles e := by
  cases e <;> cases hs : s.settled <;>
    simp only [stepEvent, resolveP, eventSettles, runCont, hs] <;>
    (try split) <;> simp [hs]

/-- Settlement triggers disposal and disposal persists: the step preserves
`disposed = settled.isSome`. -/
theorem disposed_stepEvent (env : ResolverEnv) (s : ScanState) (e : ScanEvent)
    (h : s.disposed = s.settled.isSome) :
    (stepEvent env s e).disposed = (stepEvent env s e).settled.isSome := by
  cases e <;> cases hs : s.settled <;>
    simp only [stepEvent, resolveP, eventSettles, runCont, hs] <;>
    (try split) <;> simp_all

/-- Folding the trace: the promise value is that of the first settling
occurrence (settle-once). -/
theorem settled_foldl (env : ResolverEnv) (events : List ScanEvent) (s : ScanState) :
    (events.foldl (stepEvent env) s).settled =
      match s.settled with
      | some v => some v
      | none => events.findSome? eventSettles := by
  induction events generalizing s with
  | nil => cases hs : s.settled <;> simp [hs]
  | cons e rest ih =>
    rw [List.foldl_cons, ih, settled_stepEvent]
    cases hs : s.settled with
    | some v => simp
    | none =>
      cases he : eventSettles e <;> simp [List.findSome?_cons, he]

/-- Folding the trace preserves `disposed = settled.isSome`. -/
theorem disposed_foldl (env : ResolverEnv) (events : List ScanEvent) (s : ScanState)
    (h : s.disposed = s.settled.isSome) :
    (events.foldl (stepEvent env) s).disposed = (events.foldl (stepEvent env) s).settled.isSome := by
  induction events generalizing s with
  | nil => simpa using h
  | cons e rest ih => exact ih _ (disposed_stepEvent env s e h)

/-! ## The at-most-once budget invariant -/

/-- Completing the `k`-th live continuation removes exactly its
contribution from `contCount`. -/
theorem contCount_set_none (conts : List (Option FailCont)) (k : Nat) (c : FailCont)
    (h : conts[k]? = some (some c)) (title : String) :
    contCount title (conts.set k none) + (if c.title = title then 1 else 0) =
      contCount title conts := by
  induction conts generalizing k with
  | nil => simp at h
  | cons oc rest ih =>
    cases k with
    | zero =>
      simp only [List.getElem?_cons_zero, Option.some_inj] at h
      subst h
      by_cases hc : c.title = title <;>
        simp [contCount, List.set, List.countP_cons, hc]
    | succ k1 =>
      simp only [List.getElem?_cons_succ] at h
      have hrec := ih k1 h
      cases oc with
      | none => simpa [contCount, List.set, List.countP_cons] using hrec
      | some c1 =>
        by_cases hc1 : c1.title = title <;>
          simp [contCount, List.set, List.countP_cons, hc1] at hrec ⊢ <;> omega

/-- Every step preserves the budget of every title: a state setting only
happens against a pending entry or a live continuation, which it consumes. -/
theorem budget_resolveP (st : TestResultState) (s : ScanState) (title : String) :
    budget title (resolveP st s) = budget title s := by
  cases hs : s.settled <;> simp [resolveP, hs, budget]

theorem budget_stepEvent (env : ResolverEnv) (s : ScanState) (e : ScanEvent) (title : String) :
    budget title (stepEvent env s e) = budget title s := by
  cases e with
  | cancelRequested => exact budget_resolveP _ _ _
  | runnerError err =>
    rw [stepEvent, budget_resolveP]
    simp [budget]
  | otherOutput str => simp [stepEvent, budget]
  | mochaStart => rfl
  | mochaPass t d =>
    cases hl : lookupTM s.tests t with
    | none => simp [stepEvent, hl, budget]
    | some tc =>
      by_cases h : t = title
      · subst h
        simp [stepEvent, hl, budget, countSetState, contCount, pendingFlag,
          List.countP_append, lookupTM_mapDelete_self]
        omega
      · have hne : title ≠ t := fun hc => h hc.symm
        simp [stepEvent, hl, budget, countSetState, contCount, pendingFlag,
          List.countP_append, lookupTM_mapDelete_ne s.tests t title hne, h]
  | mochaFail payload =>
    cases hl : lookupTM s.tests payload.fullTitle with
    | none => simp [stepEvent, hl, budget]
    | some tc =>
      by_cases h : payload.fullTitle = title
      · subst h
        simp [stepEvent, hl, budget, countSetState, contCount, pendingFlag,
          List.countP_append, lookupTM_mapDelete_self]
        omega
      · have hne : title ≠ payload.fullTitle := fun hc => h hc.symm
        simp [stepEvent, hl, budget, countSetState, contCount, pendingFlag,
          List.countP_append, lookupTM_mapDelete_ne s.tests payload.fullTitle title hne, h]
  | mochaEnd => exact budget_resolveP _ _ _
  | locationDone k =>
    cases hc : s.conts[k]? with
    | none => simp [stepEvent, hc]
    | some oc =>
      cases oc with
      | none => simp [stepEvent, hc]
      | some c =>
        have hset := contCount_set_none s.conts k c hc title
        by_cases h : c.title = title <;>
          simp [stepEvent, hc, runCont, budget, countSetState, List.countP_append, h] at hset ⊢ <;>
          omega

theorem budget_foldl (env : ResolverEnv) (events : List ScanEvent) (s : ScanState)
    (title : String) :
    budget title (events.foldl (stepEvent env) s) = budget title s := by
  induction events generalizing s with
  | nil => rfl
  | cons e rest ih => rw [List.foldl_cons, ih, budget_stepEvent]

/-- A title's state is set at most once over any trace. -/
theorem countSetState_scan_le_one (cancelledAtEntry : Bool) (tests0 : List (String × TestCase))
    (env : ResolverEnv) (events : List ScanEvent) (title : String) :
    countSetState title (scanTestOutput cancelledAtEntry tests0 env events).actions ≤ 1 := by
  cases cancelledAtEntry with
  | true => simp [scanTestOutput, countSetState]
  | false =>
    have hb := budget_foldl env events (initScan tests0) title
    have h1 : budget title (initScan tests0) ≤ 1 := by
      simp only [budget, initScan, countSetState, contCount, pendingFlag, List.countP_nil]
      split <;> omega
    have h2 : countSetState title (events.foldl (stepEvent env) (initScan tests0)).actions ≤
        budget title (events.foldl (stepEvent env) (initScan tests0)) := by
      simp only [budget]
      omega
    simp only [scanTestOutput, Bool.false_eq_true, if_false]
    omega

/-! ## Lemmas about the pending-index builder -/

/-- All cases below every batch of the work stack. -/
def collectQ : List (List VSCodeTest) → List TestCase
  | [] => []
  | b :: q => collectList b ++ collectQ q

theorem foldIns_nil (m : List (String × TestCase)) : foldIns m [] = m := rfl

theorem foldIns_cons (m : List (String × TestCase)) (c : TestCase) (l : List TestCase) :
    foldIns m (c :: l) = foldIns (mapSet m c.fullLabel c) l := rfl

/-- The loop is the in-order insertion of `procOrder`. -/
theorem getPendingAux_eq_foldIns (b : List VSCodeTest) (q : List (List VSCodeTest))
    (m : List (String × TestCase)) :
    getPendingAux b q m = foldIns m (procOrder b q) := by
  induction b, q, m using getPendingAux.induct with
  | case1 m => rw [getPendingAux, procOrder, foldIns_nil]
  | case2 b q m ih => rw [getPendingAux, procOrder, ih]
  | case3 bs q m rc ih => rw [getPendingAux, procOrder, ih]
  | case4 bs q m c ih => rw [getPendingAux, procOrder, foldIns_cons, ih]
  | case5 bs q m ch ih => rw [getPendingAux, procOrder, ih]

theorem perm_shuffle (xs ys zs : List TestCase) : (xs ++ (ys ++ zs)).Perm ((ys ++ xs) ++ zs) := by
  rw [← List.append_assoc]
  exact List.perm_append_comm.append_right zs

/-- The insertion order is a permutation of the cases below the stack. -/
theorem procOrder_perm (b : List VSCodeTest) (q : List (List VSCodeTest)) :
    (procOrder b q).Perm (collectList b ++ collectQ q) := by
  induction b, q using procOrder.induct with
  | case1 => simp [procOrder, collectList, collectQ]
  | case2 b q ih =>
    rw [procOrder]
    simpa [collectList, collectQ] using ih
  | case3 bs q rc ih =>
    rw [procOrder]
    refine ih.trans ?_
    simp only [collectList, collectCases, collectQ, List.append_assoc]
    exact (perm_shuffle (collectList bs) (collectList rc) (collectQ q)).trans
      (by rw [List.append_assoc])
  | case4 bs q c ih =>
    rw [procOrder]
    simpa [collectList, collectCases, collectQ] using ih.cons c
  | case5 bs q ch ih =>
    rw [procOrder]
    refine ih.trans ?_
    simp only [collectList, collectCases, collectQ, List.append_assoc]
    exact (perm_shuffle (collectList bs) (collectList ch) (collectQ q)).trans
      (by rw [List.append_assoc])

/-- Looking up an inserted batch: the last insertion under a key wins;
keys never inserted fall back to the original map. -/
theorem lookupTM_foldIns (l : List TestCase) (m : List (String × TestCase)) (k : String) :
    lookupTM (foldIns m l) k =
      match l.reverse.find? (fun c => decide (c.fullLabel = k)) with
      | some c => some c
      | none => lookupTM m k := by
  induction l generalizing m with
  | nil => simp [foldIns_nil]
  | cons c l ih =>
    rw [foldIns_cons, ih, List.reverse_cons, List.find?_append]
    cases hf : l.reverse.find? (fun c => decide (c.fullLabel = k)) with
    | some d => simp [hf, Option.or]
    | none =>
      by_cases h : c.fullLabel = k
      · subst h
        simp [hf, List.find?, lookupTM_mapSet_self]
      · have hne : k ≠ c.fullLabel := fun hc => h hc.symm
        simp [hf, List.find?, h, lookupTM_mapSet_ne m c.fullLabel k c hne]

/-! ## Sample data used by the witnesses -/

/-- An environment whose source-map fetch always throws (caught by the
resolver). -/
def noLocEnv : ResolverEnv :=
  ⟨fun _ => .error "ENOENT", fun _ _ => .error "unreachable"⟩

/-- An environment that resolves every query to `src.ts:7:4` (1-based
line). -/
def okEnv : ResolverEnv :=
  ⟨fun _ => .ok "contents", fun _ _ => .ok ⟨fun _ => ⟨some "src.ts", some 7, some 4⟩⟩⟩

/-- A sample case with title `"t"`. -/
def caseT : TestCase := ⟨"t", "file:///x/a.ts", ⟨⟨3, 2⟩, ⟨9, 0⟩⟩⟩

/-- A sample `fail` payload for `caseT`. -/
def failT : FailPayload := ⟨"t", 12, "boom\n+ actual: 1\n- expected: 2", some "file:///a.js:5:3", "2", "1"⟩

/-- The scan state after `caseT`'s pass event has been processed. -/
def sAfterPass : ScanState := stepEvent noLocEnv (initScan [("t", caseT)]) (.mochaPass "t" 5)

/-- An already-settled state holding one live continuation. -/
def sSettledWithCont : ScanState :=
  { tests := [], settled := some .Skipped, disposed := true, log := [],
    actions := [], conts := [some ⟨"t", caseT, testFirstLineOf caseT, "boom", none, "", "", 12⟩] }

/-! ## The claims -/

/-- **C1.** For every run and every event sequence, a test case's result
state is set at most once per run: on the first pass or fail event whose
title matches an entry in the pending index, the title is removed from the
index, and every subsequent pass or fail event carrying the same title
leaves that case's state unchanged (it is a no-op beyond logging). -/
theorem c1_at_most_once_per_title (cancelledAtEntry : Bool)
    (tests0 : List (String × TestCase)) (env : ResolverEnv) (events : List ScanEvent)
    (title : String) :
    countSetState title (scanTestOutput cancelledAtEntry tests0 env events).actions ≤ 1
  ∧ (∀ (env2 : ResolverEnv) (s : ScanState) (d : Nat),
      lookupTM (stepEvent env2 s (.mochaPass title d)).tests title = none)
  ∧ (∀ (env2 : ResolverEnv) (s : ScanState) (payload : FailPayload),
      payload.fullTitle = title →
      lookupTM (stepEvent env2 s (.mochaFail payload)).tests title = none)
  ∧ (∀ (env2 : ResolverEnv) (s : ScanState) (d : Nat),
      lookupTM s.tests title = none →
      stepEvent env2 s (.mochaPass title d) = { s with log := s.log ++ [" √ " ++ title] })
  ∧ (∀ (env2 : ResolverEnv) (s : ScanState) (payload : FailPayload),
      payload.fullTitle = title → lookupTM s.tests title = none →
      stepEvent env2 s (.mochaFail payload) = { s with log := s.log ++ [" x " ++ title] }) := by
  refine ⟨countSetState_scan_le_one _ _ _ _ _, ?_, ?_, ?_, ?_⟩
  · intro env2 s d
    cases hl : lookupTM s.tests title with
    | none => simp [stepEvent, hl]
    | some tc => simp [stepEvent, hl, lookupTM_mapDelete_self]
  · intro env2 s payload hp
    subst hp
    cases hl : lookupTM s.tests payload.fullTitle with
    | none => simp [stepEvent, hl]
    | some tc => simp [stepEvent, hl, lookupTM_mapDelete_self]
  · intro env2 s d hl
    simp [stepEvent, hl]
  · intro env2 s payload hp hl
    subst hp
    simp [stepEvent, hl]

theorem c1_witness :
    countSetState "t" (scanTestOutput false [("t", caseT)] noLocEnv
        [.mochaPass "t" 5, .mochaPass "t" 6]).actions ≤ 1
  ∧ lookupTM (stepEvent noLocEnv sAfterPass (.mochaPass "t" 6)).tests "t" = none
  ∧ lookupTM (stepEvent noLocEnv sAfterPass (.mochaFail failT)).tests "t" = none
  ∧ stepEvent noLocEnv sAfterPass (.mochaPass "t" 6)
      = { sAfterPass with log := sAfterPass.log ++ [" √ " ++ "t"] }
  ∧ stepEvent noLocEnv sAfterPass (.mochaFail failT)
      = { sAfterPass with log := sAfterPass.log ++ [" x " ++ "t"] } :=
  ⟨(c1_at_most_once_per_title false [("t", caseT)] noLocEnv [.mochaPass "t" 5, .mochaPass "t" 6]
      "t").1,
   (c1_at_most_once_per_title false [] noLocEnv [] "t").2.1 noLocEnv sAfterPass 6,
   (c1_at_most_once_per_title false [] noLocEnv [] "t").2.2.1 noLocEnv sAfterPass failT rfl,
   (c1_at_most_once_per_title false [] noLocEnv [] "t").2.2.2.1 noLocEnv sAfterPass 6 (by rfl),
   (c1_at_most_once_per_title false [] noLocEnv [] "t").2.2.2.2 noLocEnv sAfterPass failT rfl
     (by rfl)⟩

/-- **C2.** The scan's promise settles exactly once — its value is that of
the first settling occurrence — and the `end` event and cancellation both
settle it with `TestResultState.Skipped`, while a runner-level fault
settles it as `Errored`; on every settlement path (including the
already-cancelled entry path) the scanner handle is disposed. -/
theorem c2_single_settlement (tests0 : List (String × TestCase)) (env : ResolverEnv)
    (events : List ScanEvent) :
    (scanTestOutput false tests0 env events).settled = events.findSome? eventSettles
  ∧ (scanTestOutput false tests0 env events).disposed = (events.findSome? eventSettles).isSome
  ∧ (scanTestOutput true tests0 env events).settled = some .Skipped
  ∧ (scanTestOutput true tests0 env events).disposed = true
  ∧ eventSettles .cancelRequested = some .Skipped
  ∧ eventSettles .mochaEnd = some .Skipped
  ∧ (∀ e, eventSettles (.runnerError e) = some .Errored) := by
  have hset : (scanTestOutput false tests0 env events).settled = events.findSome? eventSettles := by
    rw [scanTestOutput]
    simp only [Bool.false_eq_true, if_false]
    rw [settled_foldl]
    simp [initScan]
  refine ⟨hset, ?_, rfl, rfl, rfl, rfl, fun _ => rfl⟩
  have hd : (scanTestOutput false tests0 env events).disposed
      = (scanTestOutput false tests0 env events).settled.isSome := by
    rw [scanTestOutput]
    simp only [Bool.false_eq_true, if_false]
    exact disposed_foldl env events (initScan tests0) rfl
  rw [hd, hset]

/-- **C6.** If the cancellation signal is already active when the scan is
entered, the scanner handle is disposed and the scan immediately settles
`Skipped` without reading any event from the stream: the result is
independent of the delivered occurrences, with empty log, no mutations and
no spawned continuations. -/
theorem c6_precancelled_entry (tests0 : List (String × TestCase)) (env : ResolverEnv)
    (events : List ScanEvent) :
    scanTestOutput true tests0 env events =
      { tests := tests0, settled := some TestResultState.Skipped, disposed := true,
        log := [], actions := [], conts := [] } := rfl

/-- **C7.** After the scan settles, the coordinator surfaces the log iff
the outcome differs from `Skipped`: an `Errored` outcome force-focuses the
log, while a run that ends via the `end` event — even one with prior
failures — settles `Skipped` and does not force focus. -/
theorem c7_output_shown_iff_not_skipped :
    (∀ outcome, showOutputAfterRun outcome = true ↔ outcome ≠ TestResultState.Skipped)
  ∧ showOutputAfterRun .Errored = true
  ∧ showOutputAfterRun .Skipped = false
  ∧ (∀ (tests0 : List (String × TestCase)) (env : ResolverEnv) (pre : List ScanEvent),
      pre.findSome? eventSettles = none →
      (scanTestOutput false tests0 env (pre ++ [.mochaEnd])).settled = some .Skipped
      ∧ showOutputAfterRun ((scanTestOutput false tests0 env
          (pre ++ [.mochaEnd])).settled.getD .Skipped) = false) := by
  refine ⟨fun outcome => by simp [showOutputAfterRun], rfl, rfl, ?_⟩
  intro tests0 env pre hpre
  have hset : (scanTestOutput false tests0 env (pre ++ [.mochaEnd])).settled = some .Skipped := by
    rw [scanTestOutput]
    simp only [Bool.false_eq_true, if_false]
    rw [settled_foldl]
    simp [initScan, List.findSome?_append, hpre, List.findSome?_cons, eventSettles]
  exact ⟨hset, by rw [hset]; rfl⟩

theorem c7_witness :
    (scanTestOutput false [("t", caseT)] noLocEnv
        ([.mochaFail failT, .mochaPass "u" 3] ++ [.mochaEnd])).settled = some .Skipped
  ∧ showOutputAfterRun ((scanTestOutput false [("t", caseT)] noLocEnv
        ([.mochaFail failT, .mochaPass "u" 3] ++ [.mochaEnd])).settled.getD .Skipped) = false :=
  c7_output_shown_iff_not_skipped.2.2.2 [("t", caseT)] noLocEnv
    [.mochaFail failT, .mochaPass "u" 3] (by rfl)

/-- **C9.** A pass or fail event whose title is absent from the pending
index raises no error and mutates nothing: the step only appends the log
line, leaving the pending index, the action trace, the continuations and
the promise untouched. -/
theorem c9_unknown_title_is_noop (env : ResolverEnv) (s : ScanState) (title : String)
    (d : Nat) (payload : FailPayload) (hp : payload.fullTitle = title)
    (h : lookupTM s.tests title = none) :
    stepEvent env s (.mochaPass title d) = { s with log := s.log ++ [" √ " ++ title] }
  ∧ stepEvent env s (.mochaFail payload) = { s with log := s.log ++ [" x " ++ title] } := by
  subst hp
  exact ⟨by simp [stepEvent, h], by simp [stepEvent, h]⟩

theorem c9_witness :
    stepEvent noLocEnv sAfterPass (.mochaPass "t" 6)
      = { sAfterPass with log := sAfterPass.log ++ [" √ " ++ "t"] }
  ∧ stepEvent noLocEnv sAfterPass (.mochaFail failT)
      = { sAfterPass with log := sAfterPass.log ++ [" x " ++ "t"] } :=
  c9_unknown_title_is_noop noLocEnv sAfterPass "t" 6 failT rfl (by rfl)

/-- **C5.** For every fail event matched in the pending index, the stored
fallback location is the short span on the case's own declared start line
(from the declared range's start to column 100 of that line), and when the
location resolver returns absent the diagnostic message attached by the
continuation carries exactly that fallback — never an empty or undefined
location. -/
theorem c5_fallback_location (env : ResolverEnv) (s : ScanState) (payload : FailPayload)
    (tcase : TestCase) (hl : lookupTM s.tests payload.fullTitle = some tcase) :
    ((stepEvent env s (.mochaFail payload)).conts
      = s.conts ++ [some
          { title := payload.fullTitle
            tcase := tcase
            firstLine := ⟨tcase.uri, .ofRange ⟨tcase.range.start, ⟨tcase.range.start.line, 100⟩⟩⟩
            err := payload.err
            stack := payload.stack
            expected := payload.expected
            actual := payload.actual
            duration := payload.duration }])
  ∧ (∀ (s2 : ScanState) (k : Nat) (c : FailCont),
      s2.conts[k]? = some (some c) →
      tryDeriveLocation env (jsOr c.stack c.err) = none →
      (stepEvent env s2 (.locationDone k)).actions
        = s2.actions ++
          [.appendMessage c.title c.tcase
             { message := tryMakeMarkdown c.err
               location := c.firstLine
               actualOutput := c.actual
               expectedOutput := c.expected },
           .setState c.title c.tcase .Failed c.duration]) := by
  constructor
  · simp [stepEvent, hl, testFirstLineOf]
  · intro s2 k c hk hnone
    simp [stepEvent, hk, runCont, hnone]

theorem c5_witness :
    ((stepEvent noLocEnv (initScan [("t", caseT)]) (.mochaFail failT)).conts
      = [] ++ [some
          { title := "t", tcase := caseT
            firstLine := ⟨caseT.uri, .ofRange ⟨caseT.range.start, ⟨caseT.range.start.line, 100⟩⟩⟩
            err := failT.err, stack := failT.stack
            expected := failT.expected, actual := failT.actual
            duration := failT.duration }])
  ∧ (stepEvent noLocEnv sSettledWithCont (.locationDone 0)).actions
      = [] ++
        [.appendMessage "t" caseT
           { message := tryMakeMarkdown "boom"
             location := testFirstLineOf caseT
             actualOutput := ""
             expectedOutput := "" },
         .setState "t" caseT .Failed 12] :=
  ⟨((c5_fallback_location noLocEnv (initScan [("t", caseT)]) failT caseT (by rfl)).1),
   ((c5_fallback_location noLocEnv (initScan [("t", caseT)]) failT caseT (by rfl)).2
      sSettledWithCont 0 ⟨"t", caseT, testFirstLineOf caseT, "boom", none, "", "", 12⟩
      (by rfl) (by rfl))⟩

/-- **C10.** The continuation attached to a fail event's location
resolution runs unconditionally when that resolution completes: the step
for `locationDone` is fully determined without consulting `settled`, so a
case is still mutated (message appended, `Failed` state set) even when the
run has already settled via cancellation, a runner error or the `end`
event. -/
theorem c10_continuation_unguarded (env : ResolverEnv) (s : ScanState) (k : Nat)
    (c : FailCont) (h : s.conts[k]? = some (some c)) :
    stepEvent env s (.locationDone k) =
      { s with
          conts := s.conts.set k none
          actions := s.actions ++
            [.appendMessage c.title c.tcase
               { message := tryMakeMarkdown c.err
                 location := (tryDeriveLocation env (jsOr c.stack c.err)).getD c.firstLine
                 actualOutput := c.actual
                 expectedOutput := c.expected },
             .setState c.title c.tcase .Failed c.duration]
          log := s.log ++ [jsOr c.stack c.err] } := by
  simp [stepEvent, h, runCont]

theorem c10_witness :
    stepEvent noLocEnv sSettledWithCont (.locationDone 0) =
      { sSettledWithCont with
          conts := sSettledWithCont.conts.set 0 none
          actions := sSettledWithCont.actions ++
            [.appendMessage "t" caseT
               { message := tryMakeMarkdown "boom"
                 location := (tryDeriveLocation noLocEnv (jsOr none "boom")).getD
                   (testFirstLineOf caseT)
                 actualOutput := ""
                 expectedOutput := "" },
             .setState "t" caseT .Failed 12]
          log := sSettledWithCont.log ++ [jsOr none "boom"] } :=
  c10_continuation_unguarded noLocEnv sSettledWithCont 0
    ⟨"t", caseT, testFirstLineOf caseT, "boom", none, "", "", 12⟩ (by rfl)

/-- **C3.** The location resolver returns absent when the input contains no
`file-URI:line:column` pattern match, when loading or parsing the `.map`
sibling of the matched file URI fails (the failure is caught, never
propagated — the result type is a total `Option`), or when any of the
reverse-mapped source, line or column is null; otherwise it returns a
location at the original source URI, querying the source map with the raw
1-based line and the raw column minus one, and converting the returned
line from 1-based to 0-based while using the returned column as-is. -/
theorem c3_location_resolver (env : ResolverEnv) (stack : String) :
    (execFileLineCol stack = none → tryDeriveLocation env stack = none)
  ∧ (∀ fileUri line col, execFileLineCol stack = some (fileUri, line, col) →
      (∀ e, loadSourceMap env fileUri = .error e → tryDeriveLocation env stack = none)
      ∧ (∀ sm, loadSourceMap env fileUri = .ok sm →
          (((sm.originalPositionFor ⟨numberOfDigits col - 1, numberOfDigits line⟩).source = none
            ∨ (sm.originalPositionFor ⟨numberOfDigits col - 1, numberOfDigits line⟩).line = none
            ∨ (sm.originalPositionFor ⟨numberOfDigits col - 1, numberOfDigits line⟩).column = none)
            → tryDeriveLocation env stack = none)
          ∧ (∀ src ln cl,
              sm.originalPositionFor ⟨numberOfDigits col - 1, numberOfDigits line⟩
                = ⟨some src, some ln, some cl⟩ →
              tryDeriveLocation env stack = some ⟨src, .ofPos ⟨ln - 1, cl⟩⟩))) := by
  refine ⟨fun h => by simp [tryDeriveLocation, h], ?_⟩
  intro fileUri line col h
  refine ⟨fun e he => by simp [tryDeriveLocation, h, he], ?_⟩
  intro sm hsm
  constructor
  · intro hnull
    cases hpos : sm.originalPositionFor ⟨numberOfDigits col - 1, numberOfDigits line⟩ with
    | mk os ol oc =>
      rw [hpos] at hnull
      cases os <;> cases ol <;> cases oc <;> simp_all [tryDeriveLocation, h, hsm, hpos]
  · intro src ln cl hpos
    simp [tryDeriveLocation, h, hsm, hpos]

theorem c3_witness :
    tryDeriveLocation noLocEnv "no pattern at all" = none
  ∧ tryDeriveLocation noLocEnv "file:///a.js:5:3" = none
  ∧ tryDeriveLocation okEnv "file:///a.js:5:3" = some ⟨"src.ts", .ofPos ⟨7 - 1, 4⟩⟩ :=
  ⟨(c3_location_resolver noLocEnv "no pattern at all").1 (by rfl),
   ((c3_location_resolver noLocEnv "file:///a.js:5:3").2 "file:///a.js" "5" "3" (by rfl)).1
     "ENOENT" (by rfl),
   (((c3_location_resolver okEnv "file:///a.js:5:3").2 "file:///a.js" "5" "3" (by rfl)).2
     ⟨fun _ => ⟨some "src.ts", some 7, some 4⟩⟩ (by rfl)).2 "src.ts" 7 4 (by rfl)⟩

/-- **C4.** `format(m)` returns `m` unchanged, as plain text, iff no line
of `m` contains the substring `+ actual`; and iff some line contains it,
the result is diff markup in which the first such line is replaced by an
opening ```` ```diff ```` fence and a closing fence is appended at the end,
with all other lines unchanged. -/
theorem c4_diff_formatter (m : String) :
    (tryMakeMarkdown m = .plain m
      ↔ (splitLines m).all (fun l => !(strContains l "+ actual")) = true)
  ∧ (∀ (i : Nat) (li : String), (splitLines m)[i]? = some li →
      strContains li "+ actual" = true →
      (∀ (j : Nat) (lj : String), j < i → (splitLines m)[j]? = some lj →
        strContains lj "+ actual" = false) →
      tryMakeMarkdown m = .markdown (joinLines (((splitLines m).set i "```diff") ++ ["```"])))
  ∧ ((∃ l, l ∈ splitLines m ∧ strContains l "+ actual" = true)
      ↔ (∃ s, tryMakeMarkdown m = .markdown s)) := by
  refine ⟨?_, ?_, ?_⟩
  · cases hf : (splitLines m).findIdx? (fun l => strContains l "+ actual") with
    | none =>
      rw [List.findIdx?_eq_none_iff] at hf
      simp only [tryMakeMarkdown, List.findIdx?_eq_none_iff.mpr hf]
      simp [Bool.not_eq_true']
      exact hf
    | some i =>
      obtain ⟨hlt, hp, -⟩ := List.findIdx?_eq_some_iff_getElem.mp hf
      simp only [tryMakeMarkdown, hf]
      constructor
      · intro hcontra
        exact absurd hcontra (by simp)
      · intro hall
        rw [List.all_eq_true] at hall
        have := hall ((splitLines m).get ⟨i, hlt⟩) (List.get_mem _ _ hlt)
        simp only [List.get_eq_getElem] at this
        rw [hp] at this
        simp at this
  · intro i li hi hp hprev
    obtain ⟨hlt, hget⟩ := List.getElem?_eq_some_iff.mp hi
    have hfind : (splitLines m).findIdx? (fun l => strContains l "+ actual") = some i := by
      rw [List.findIdx?_eq_some_iff_getElem]
      refine ⟨hlt, by rw [hget]; exact hp, ?_⟩
      intro j hj
      have hj2 : j < (splitLines m).length := Nat.lt_trans hj hlt
      have := hprev j ((splitLines m).get ⟨j, hj2⟩) hj
        (by simp [List.getElem?_eq_some_iff, hj2])
      simp only [List.get_eq_getElem] at this
      simp [this]
    simp only [tryMakeMarkdown, hfind]
  · cases hf : (splitLines m).findIdx? (fun l => strContains l "+ actual") with
    | none =>
      rw [List.findIdx?_eq_none_iff] at hf
      constructor
      · rintro ⟨l, hl, hc⟩
        rw [hf l hl] at hc
        exact absurd hc (by simp)
      · rintro ⟨s, hs⟩
        rw [tryMakeMarkdown, List.findIdx?_eq_none_iff.mpr hf] at hs
        exact absurd hs (by simp)
    | some i =>
      obtain ⟨hlt, hp, -⟩ := List.findIdx?_eq_some_iff_getElem.mp hf
      refine ⟨fun _ => ⟨joinLines (((splitLines m).set i "```diff") ++ ["```"]),
        by simp only [tryMakeMarkdown, hf]⟩, fun _ => ?_⟩
      exact ⟨(splitLines m).get ⟨i, hlt⟩, List.get_mem _ _ hlt, by
        simpa only [List.get_eq_getElem] using hp⟩

theorem c4_witness :
    (tryMakeMarkdown "hello\nworld" = .plain "hello\nworld"
      ↔ (splitLines "hello\nworld").all (fun l => !(strContains l "+ actual")) = true)
  ∧ tryMakeMarkdown "x\n+ actual: 1\ny"
      = .markdown (joinLines (((splitLines "x\n+ actual: 1\ny").set 1 "```diff") ++ ["```"])) :=
  ⟨(c4_diff_formatter "hello\nworld").1,
   (c4_diff_formatter "x\n+ actual: 1\ny").2.1 1 "+ actual: 1" (by rfl) (by rfl)
     (fun j lj hj hlj => by
       have hj0 : j = 0 := Nat.lt_one_iff.mp hj
       subst hj0
       have h0 : (splitLines "x\n+ actual: 1\ny")[0]? = some "x" := rfl
       rw [h0] at hlj
       have hx : lj = "x" := (Option.some_inj.mp hlj).symm
       rw [hx]
       rfl)⟩

/-- **C8.** For every finite test-item hierarchy the builder terminates
(`getPendingTestMap` is a total function, by the size measure of the work
stack) and returns a map in which every file-level item encountered has
been refreshed and its children expanded, and every other container's
children are expanded — `collectList` descends through a file's
post-refresh children and a container's children alike — so every leaf
case appears keyed by its fully-qualified title (the lookup succeeds
exactly for the titles of the collected cases); and when several case
items share a title the later-processed one overwrites the earlier: the
lookup returns the last insertion in processing order (`procOrder`). -/
theorem c8_pending_index_builder (ts : List VSCodeTest) (k : String) :
    lookupTM (getPendingTestMap ts) k
      = (procOrder ts []).reverse.find? (fun c => decide (c.fullLabel = k))
  ∧ ((lookupTM (getPendingTestMap ts) k).isSome
      ↔ ∃ c, c ∈ collectList ts ∧ c.fullLabel = k) := by
  have h1 : lookupTM (getPendingTestMap ts) k
      = (procOrder ts []).reverse.find? (fun c => decide (c.fullLabel = k)) := by
    rw [getPendingTestMap, getPendingAux_eq_foldIns, lookupTM_foldIns]
    cases hf : (procOrder ts []).reverse.find? (fun c => decide (c.fullLabel = k)) <;>
      simp [hf, lookupTM_nil]
  refine ⟨h1, ?_⟩
  rw [h1, List.find?_isSome]
  constructor
  · rintro ⟨c, hc, hp⟩
    rw [List.mem_reverse] at hc
    have hc2 := (procOrder_perm ts []).mem_iff.mp hc
    rw [collectQ, List.append_nil] at hc2
    exact ⟨c, hc2, by simpa using hp⟩
  · rintro ⟨c, hc, hp⟩
    refine ⟨c, ?_, by simp [hp]⟩
    rw [List.mem_reverse]
    apply (procOrder_perm ts []).mem_iff.mpr
    rw [collectQ, List.append_nil]
    exact hc

end VscodeTestProvider
